import Mathlib

/-!
Verification of the haraqafs quorum-replicated file handle.

This file is a shallow embedding of the Go sources:
- `file.go` (the replicated `File` I/O surface: Read/ReadAt, Write/WriteAt, Close),
- the options/error-aggregation helpers (`aggErrors`, `FileOption`s),
- the consensus engine (`New`, `consensus`, `source`, `isSourceOfTruth`).

Modelling conventions:
- Byte strings are `List Nat` (`Bytes`).
- An open OS file handle (`*os.File`) is an `IORep`: its content, its own seek
  offset `hofs` (`Read`/`Write`/`io.Copy` advance it; `ReadAt`/`WriteAt`/`Truncate`
  do not), its modification time, a directory flag, and injectable outcomes for
  `WriteAt` (`wres`), `Sync` (`syncOk`) and `Close` (`cres`) so that per-replica
  failures can be expressed.  A volume whose open failed is a `none` slot.
- The capacity-1 signalling channel used as a mutual-exclusion gate is modelled
  sequentially as `Gate`: `.avail` (token present) or `.shut` (channel closed);
  every operation takes and returns the token synchronously.
- Go errors are the inductive `GErr`; `fmt.Errorf("...%w", err)` wrapping with
  the replica path is `GErr.wrap i e` (the path replaced by the volume index);
  `errors.Is(err, os.ErrClosed)` is `GErr.isClosedErr`.  An operation's reported
  error is a `GoRes`: `.ok` (nil error), `.one e` (a bare error) or `.agg es`
  (the aggregate produced by `aggErrors` for two or more errors).
- The global `sync.Pool` buffer reuse is a performance detail with no contract
  (spec section 9); pooled slices are modelled as freshly zeroed.
- The `for sizes[i] < sizes[index]` copy loop in `source` is written with
  explicit fuel; an iteration that reads zero bytes leaves the whole state
  unchanged, which in Go loops forever, and is mapped to the distinguished
  error `GErr.stuckLoop`.
- Out-of-range slice indexing (a Go panic) is mapped to `GErr.panicked`.
-/

set_option maxHeartbeats 1000000

namespace Haraqafs

/-- Byte strings. -/
abbrev Bytes := List Nat

/-- Go error values observable through this package. -/
inductive GErr where
  | invalid
  | closed
  | eofE
  | shortWrite
  | syncFail
  | quorumNotReached
  | typeMismatch
  | stuckLoop
  | panicked
  | openFail (i : Nat)
  | otherE (n : Nat)
  | wrap (i : Nat) (e : GErr)
  deriving DecidableEq, Repr

/-- errors.Is(err, os.ErrClosed): unwraps through wrap chains. -/
def GErr.isClosedErr : GErr → Bool
  | .closed => true
  | .wrap _ e => e.isClosedErr
  | _ => false

/-- The error result of an operation: nil, a single (bare) error, or the
aggregate produced by `aggErrors` for two or more errors. -/
inductive GoRes where
  | ok
  | one (e : GErr)
  | agg (es : List GErr)
  deriving DecidableEq, Repr

/-- aggErrors from the error-aggregation helper: zero errors is nil, one error
is returned bare, several are combined into one aggregate. -/
def aggErrorsM : List GErr → GoRes
  | [] => .ok
  | [e] => .one e
  | es => .agg es

/-- Injected outcome of one underlying `WriteAt` on a replica handle:
full success, an error (nothing written), or a short write of `k` bytes. -/
inductive WRes where
  | okW
  | errW (n : Nat)
  | shortW (k : Nat)
  deriving DecidableEq, Repr

/-- Injected outcome of one underlying `Close` on a replica handle. -/
inductive CRes where
  | okC
  | alreadyClosedC
  | failC (n : Nat)
  deriving DecidableEq, Repr

/-- One open replica handle (`*os.File` under `volume/name`). -/
structure IORep where
  content : Bytes
  hofs : Nat
  modTime : Int
  isDir : Bool
  wres : WRes
  syncOk : Bool
  cres : CRes
  deriving DecidableEq, Repr

/-- A freshly opened plain-file replica holding content `c`, with default
(successful) injected I/O outcomes. -/
def fileRep (c : Bytes) (t : Int) : IORep :=
  { content := c, hofs := 0, modTime := t, isDir := false,
    wres := .okW, syncOk := true, cres := .okC }

/-- The single-slot mutual-exclusion gate (capacity-1 channel), sequentially:
token available, or channel permanently closed. -/
inductive Gate where
  | avail
  | shut
  deriving DecidableEq, Repr

/-- The quorum-fail (source-of-truth) policy enum. -/
inductive QF where
  | error
  | writeFirst
  | writeLast
  | orderFirst
  | orderLast
  | longest
  | shortest
  | shortestNonZero
  deriving DecidableEq, Repr

/-- The replicated `File` aggregate. `multi` is the ordered replica slot list
(`none` = that volume's open failed); `offset` is the shared logical cursor. -/
structure FState where
  quorum : Nat
  appendOnly : Bool
  forceSync : Bool
  hashing : Option (Bytes → Bytes)
  quorumFail : QF
  multi : List (Option IORep)
  offset : Int
  gate : Gate

/-- Construction-time configuration (the `FileOption`s that matter to the
replicated path). `quorum = 0` means unset (defaults to strict majority). -/
structure Cfg where
  quorum : Nat
  appendOnly : Bool
  forceSync : Bool
  hashing : Option (Bytes → Bytes)
  quorumFail : QF

/-- Per-replica contents of a handle, for stating theorems. -/
def contentsOfL (multi : List (Option IORep)) : List (Option Bytes) :=
  multi.map (Option.map IORep.content)

/-- Per-replica contents of a `File` state. -/
def contentsOf (st : FState) : List (Option Bytes) :=
  contentsOfL st.multi

/-- The 8-byte little-endian encoding of a size, the digest used when no hash
function is configured (`binary.LittleEndian.PutUint64`). -/
def encLE8 (n : Nat) : Bytes :=
  [n % 256, n / 256 % 256, n / 256 ^ 2 % 256, n / 256 ^ 3 % 256,
   n / 256 ^ 4 % 256, n / 256 ^ 5 % 256, n / 256 ^ 6 % 256, n / 256 ^ 7 % 256]

/-- bytes.Equal on possibly-nil digests: a nil slice compares equal to an
empty one. -/
def digestEq (a b : Option Bytes) : Bool :=
  a.getD [] == b.getD []

/-- The digest the consensus pass computes for a freshly opened replica
holding content `c` (empty replicas carry no digest). -/
def dgFresh (h : Option (Bytes → Bytes)) (c : Bytes) : Option Bytes :=
  if c.length == 0 then none
  else match h with
    | none => some (encLE8 c.length)
    | some hf => some (hf c)

/-- isSourceOfTruth from the consensus engine: the pure tie-break decision,
evaluated while scanning replicas from the last volume to the first.
`bsz = -1`, `bmod = 0` (the zero time) and `bidx = -1` are the initial
"no candidate" values. -/
def isSourceOfTruth (sz mt : Int) (qf : QF) (i bidx bsz bmod : Int) : Bool :=
  match qf with
  | .error => false
  | .writeFirst => mt < bmod || bmod == 0
  | .writeLast => bmod < mt
  | .orderFirst => bidx < 0 || i < bidx
  | .orderLast => bidx < i
  | .longest => bsz < sz
  | .shortest => bsz < 0 || sz < bsz
  | .shortestNonZero => 0 < sz && sz < bsz

/-- State of the consensus digest scan (`consensus`'s loop from the last
volume index down to 0): type flags, the tie-break candidate, the per-volume
digests, the sizes in visit order (last volume first), and the replica slots
(whose handle offsets the digest pass advances). -/
structure ScanSt where
  foundDir : Bool
  foundFile : Bool
  srcIdx : Int
  srcSize : Int
  srcMod : Int
  hashes : List (Option Bytes)
  sizes : List Int
  multi : List (Option IORep)

/-- Initial scan state: no flags, no candidate, nil digests, empty sizes. -/
def initScan (multi : List (Option IORep)) : ScanSt :=
  { foundDir := false, foundFile := false, srcIdx := -1, srcSize := -1,
    srcMod := 0, hashes := List.replicate multi.length none, sizes := [],
    multi := multi }

/-- One iteration of the consensus digest scan at volume index `i`: stat the
replica, check file/dir type consistency, update the tie-break candidate,
record the size, and compute the digest (hashing the content via `io.Copy`
advances the handle's seek offset to end-of-file). -/
def scanStep (h : Option (Bytes → Bytes)) (qf : QF) (st : ScanSt) (i : Nat) :
    Except GErr ScanSt :=
  match st.multi.getD i none with
  | none => .ok st
  | some r =>
    let fd := st.foundDir || r.isDir
    let ff := st.foundFile || !r.isDir
    if fd && ff then .error .typeMismatch
    else
      let sz : Int := r.content.length
      let st1 :=
        if isSourceOfTruth sz r.modTime qf (i : Int) st.srcIdx st.srcSize st.srcMod
        then { st with foundDir := fd, foundFile := ff,
                       srcIdx := (i : Int), srcSize := sz, srcMod := r.modTime }
        else { st with foundDir := fd, foundFile := ff }
      let st2 := { st1 with sizes := st1.sizes ++ [sz] }
      if r.content.length == 0 then .ok st2
      else
        match h with
        | none => .ok { st2 with hashes := st2.hashes.set i (some (encLE8 r.content.length)) }
        | some hf =>
          .ok { st2 with
                hashes := st2.hashes.set i (some (hf (r.content.drop r.hofs))),
                multi := st2.multi.set i (some { r with hofs := r.content.length }) }

/-- The consensus digest scan over a list of volume indices (the code visits
`len(multi)-1, ..., 0`). -/
def scanLoop (h : Option (Bytes → Bytes)) (qf : QF) :
    List Nat → ScanSt → Except GErr ScanSt
  | [], st => .ok st
  | i :: rest, st =>
    match scanStep h qf st i with
    | .error e => .error e
    | .ok st1 => scanLoop h qf rest st1

/-- The all-pairwise-adjacent digest equality check (`allEqual` in
`consensus`). -/
def allAdjEq : List (Option Bytes) → Bool
  | [] => true
  | [_] => true
  | a :: b :: t => digestEq a b && allAdjEq (b :: t)

/-- The quorum search: visiting volume indices from last to first, count
occurrences of each non-nil digest; the moment a digest's count reaches the
quorum, that index becomes the canonical source. `seen` is the multiset of
digests already visited (the Go `hashMatches` map). -/
def countLoop (q : Nat) (hashes : List (Option Bytes)) :
    List Nat → List Bytes → Option Nat
  | [], _ => none
  | i :: rest, seen =>
    match hashes.getD i none with
    | none => countLoop q hashes rest seen
    | some v =>
      if q ≤ seen.count v + 1 then some i
      else countLoop q hashes rest (v :: seen)

/-- os.File Write at the handle's own seek offset: overwrites (zero-filling
any gap between end-of-file and the offset) and extends. -/
def osWriteBytes (c : Bytes) (pos : Nat) (b : Bytes) : Bytes :=
  let base := c ++ List.replicate (pos - c.length) 0
  base.take pos ++ b ++ base.drop (pos + b.length)

/-- os.File Truncate to `k` bytes: shortens, or zero-extends when `k` exceeds
the current size. The handle's seek offset is unaffected. -/
def truncBytes (c : Bytes) (k : Nat) : Bytes :=
  c.take k ++ List.replicate (k - c.length) 0

/-- State threaded through `source` (the anti-entropy repair): the replica
slots, the (mutated) sizes scratch list, and the shared cursor. -/
structure SrcSt where
  multi : List (Option IORep)
  sizes : List Int
  offset : Int

/-- The `for sizes[i] < sizes[index]` chunk-copy loop of `source`: read up to
1e6 bytes of the canonical replica at offset `sizes[i]` (via `ReadAt`, which
does not move the source's seek offset) and `Write` them to replica `i` at
that replica's own seek offset. An iteration that reads zero bytes repeats
forever in the Go code (`GErr.stuckLoop`). -/
def copyChunks (srcC : Bytes) (target : Int) :
    Nat → IORep → Int → Except GErr (IORep × Int)
  | 0, r, szi => if szi < target then .error .stuckLoop else .ok (r, szi)
  | fuel + 1, r, szi =>
    if szi < target then
      let chunk := (srcC.drop szi.toNat).take 1000000
      let n := chunk.length
      if n == 0 then .error .stuckLoop
      else
        copyChunks srcC target fuel
          { r with content := osWriteBytes r.content r.hofs chunk, hofs := r.hofs + n }
          (szi + n)
    else .ok (r, szi)

/-- Repair of one replica slot `i` against the canonical index: skip when the
digests agree; create directories; create-and-copy missing files (`io.Copy`
reads the canonical replica from its current seek offset and advances it);
otherwise truncate (unless append-only) and chunk-copy. -/
def repairOne (ao : Bool) (isDir : Bool) (index : Nat)
    (hashes : List (Option Bytes)) (s : SrcSt) (i : Nat) : Except GErr SrcSt :=
  if i == index || digestEq (hashes.getD i none) (hashes.getD index none) then .ok s
  else if isDir then
    -- os.MkdirAll at that volume's path; no replica file content is touched
    .ok s
  else
    match s.multi.getD i none with
    | none =>
      match s.multi.getD index none, s.sizes[index]? with
      | none, _ => .error .panicked
      | _, none => .error .panicked
      | some src, some szx =>
        let copied := src.content.drop src.hofs
        if (copied.length : Int) != szx then .error (.wrap i .shortWrite)
        else
          .ok { s with
                multi :=
                  (s.multi.set i (some
                    { content := copied, hofs := copied.length, modTime := 0,
                      isDir := false, wres := .okW, syncOk := true, cres := .okC })).set
                    index (some { src with hofs := src.content.length }) }
    | some r0 =>
      let step1 : Except GErr (SrcSt × IORep) :=
        if ao then .ok (s, r0)
        else
          if i < s.sizes.length then
            let r1 := { r0 with content := [] }
            .ok ({ s with sizes := s.sizes.set i 0,
                          multi := s.multi.set i (some r1) }, r1)
          else .error .panicked
      match step1 with
      | .error e => .error e
      | .ok (s1, r1) =>
        match s1.sizes[i]?, s1.sizes[index]? with
        | none, _ => .error .panicked
        | _, none => .error .panicked
        | some szi, some szx =>
          if szx < szi then
            let r2 := { r1 with content := truncBytes r1.content szx.toNat }
            .ok { s1 with multi := s1.multi.set i (some r2) }
          else
            match s1.multi.getD index none with
            | none => .error .panicked
            | some src =>
              match copyChunks src.content szx ((szx - szi).toNat + 1) r1 szi with
              | .error e => .error e
              | .ok (r2, szi2) =>
                .ok { s1 with multi := s1.multi.set i (some r2),
                              sizes := s1.sizes.set i szi2 }

/-- The repair loop of `source` over all volume indices in order. -/
def repairLoop (ao : Bool) (isDir : Bool) (index : Nat)
    (hashes : List (Option Bytes)) : List Nat → SrcSt → Except GErr SrcSt
  | [], s => .ok s
  | i :: rest, s =>
    match repairOne ao isDir index hashes s i with
    | .error e => .error e
    | .ok s1 => repairLoop ao isDir index hashes rest s1

/-- `source`: in append-only mode initialize the cursor to `sizes[index]`,
then repair every divergent replica against the canonical index. -/
def sourceRun (ao : Bool) (isDir : Bool) (index : Nat)
    (hashes : List (Option Bytes)) (s0 : SrcSt) : Except GErr SrcSt :=
  let withOfs : Except GErr SrcSt :=
    if ao then
      match s0.sizes[index]? with
      | none => .error .panicked
      | some sx => .ok { s0 with offset := sx }
    else .ok s0
  match withOfs with
  | .error e => .error e
  | .ok s1 => repairLoop ao isDir index hashes (List.range s1.multi.length) s1

/-- Helper gluing `sourceRun`'s result back into the `File` state. -/
def finishSource (st : FState) (sc : ScanSt) (index : Nat) : FState × GoRes :=
  match sourceRun st.appendOnly sc.foundDir index sc.hashes
      { multi := sc.multi, sizes := sc.sizes, offset := st.offset } with
  | .error e => ({ st with multi := sc.multi }, .one e)
  | .ok s => ({ st with multi := s.multi, offset := s.offset }, .ok)

/-- The consensus engine (runs once during open): single-replica fast path,
digest scan, all-equal check (append-only initializes the cursor to
`sizes[0]`, the size of the last stat'd volume), quorum search, and the
tie-break fallback ("unable to reach quorum in source" when no candidate). -/
def consensus (st : FState) : FState × GoRes :=
  if st.multi.length == 1 && (st.multi.getD 0 none).isSome then (st, .ok)
  else
    match scanLoop st.hashing st.quorumFail
        (List.range st.multi.length).reverse (initScan st.multi) with
    | .error e => (st, .one e)
    | .ok sc =>
      let stm := { st with multi := sc.multi }
      if allAdjEq sc.hashes then
        if st.appendOnly then
          match sc.sizes.head? with
          | none => (stm, .one .panicked)
          | some s0 => ({ stm with offset := s0 }, .ok)
        else (stm, .ok)
      else
        match countLoop st.quorum sc.hashes
            (List.range st.multi.length).reverse [] with
        | some i => finishSource stm sc i
        | none =>
          if sc.srcSize == -1 then (stm, .one .quorumNotReached)
          else finishSource stm sc sc.srcIdx.toNat

/-- The per-volume open errors collected by `New` (volume order). -/
def openErrs : Nat → List (Option IORep) → List GErr
  | _, [] => []
  | i, v :: rest =>
    if v.isSome then openErrs (i + 1) rest
    else .openFail i :: openErrs (i + 1) rest

/-- `New` on the replicated (volumes supplied) path: resolve the quorum
default, open every `volume/name` (a `none` slot is a failed open), fail if
fewer than quorum opened, then run consensus; on consensus failure the handle
is best-effort closed and never returned. -/
def NewM (cfg : Cfg) (vols : List (Option IORep)) : Option FState × GoRes :=
  let q := if cfg.quorum == 0 then 1 + vols.length / 2 else cfg.quorum
  let errs := openErrs 0 vols
  if vols.length - errs.length < q then (none, aggErrorsM errs)
  else
    let st : FState :=
      { quorum := q, appendOnly := cfg.appendOnly, forceSync := cfg.forceSync,
        hashing := cfg.hashing, quorumFail := cfg.quorumFail,
        multi := vols, offset := 0, gate := .avail }
    let res := consensus st
    match res.2 with
    | .ok => (some res.1, .ok)
    | e => (none, e)

/-- os.File ReadAt with a caller buffer of `blen` bytes at offset `off`:
returns the byte count read and EOF when the buffer was not filled. The
handle's own seek offset is not consulted and not moved. -/
def osReadAtN (c : Bytes) (off : Int) (blen : Nat) : Nat × GoRes :=
  if off < 0 then (0, .one .invalid)
  else
    let n := min blen (c.length - off.toNat)
    if n < blen then (n, .one .eofE) else (n, .ok)

/-- Underlying ReadAt on one replica slot (a nil handle reports invalid). -/
def slotReadAtN (blen : Nat) (off : Int) : Option IORep → Nat × GoRes
  | none => (0, .one .invalid)
  | some r => osReadAtN r.content off blen

/-- File.ReadAt's replica scan, from the last-added volume toward the first
(the argument list is already reversed): stop at the first replica yielding a
nil error or a nonzero count; otherwise the last replica's result stands. -/
def readScanGo (blen : Nat) (off : Int) :
    List (Option IORep) → Nat × GoRes → Nat × GoRes
  | [], last => last
  | s :: rest, _ =>
    let res := slotReadAtN blen off s
    if res.2 == .ok || 0 < res.1 then res else readScanGo blen off rest res

/-- File.ReadAt: guard, scan replicas last volume to first, then advance the
shared cursor by the byte count (the `f.offset += int64(n)` in `ReadAt`). -/
def readAtM (st : FState) (blen : Nat) (off : Int) : FState × Nat × GoRes :=
  if st.multi.isEmpty then (st, 0, .one .invalid)
  else
    match st.gate with
    | .shut => (st, 0, .one .closed)
    | .avail =>
      let res := readScanGo blen off st.multi.reverse (0, .ok)
      ({ st with offset := st.offset + res.1 }, res.1, res.2)

/-- File.Read: delegates to ReadAt at the shared cursor. -/
def readM (st : FState) (blen : Nat) : FState × Nat × GoRes :=
  readAtM st blen st.offset

/-- os.File WriteAt at an explicit non-negative offset (zero-fills any gap
beyond end-of-file); the handle's own seek offset is unaffected. -/
def osWriteAtBytes (c : Bytes) (off : Nat) (b : Bytes) : Bytes :=
  osWriteBytes c off b

/-- File.WriteAt's fan-out over the replicas in volume order (`i` is the
volume index used to wrap errors with the replica's path): stop at the first
underlying error, short write, or — when forceSync is set — failed flush,
leaving the remaining replicas unattempted. -/
def writeLoop (fs : Bool) (b : Bytes) (off : Int) :
    Nat → List (Option IORep) → List (Option IORep) × GoRes
  | _, [] => ([], .ok)
  | i, none :: rest => (none :: rest, .one (.wrap i .invalid))
  | i, some r :: rest =>
    if off < 0 then (some r :: rest, .one (.wrap i .invalid))
    else
      match r.wres with
      | .errW e => (some r :: rest, .one (.wrap i (.otherE e)))
      | .okW =>
        let r1 := { r with content := osWriteAtBytes r.content off.toNat b }
        if fs && !r.syncOk then (some r1 :: rest, .one (.wrap i .syncFail))
        else
          let res := writeLoop fs b off (i + 1) rest
          (some r1 :: res.1, res.2)
      | .shortW k =>
        let n := min k b.length
        let r1 := { r with content := osWriteAtBytes r.content off.toNat (b.take n) }
        if n != b.length then (some r1 :: rest, .one (.wrap i .shortWrite))
        else if fs && !r.syncOk then (some r1 :: rest, .one (.wrap i .syncFail))
        else
          let res := writeLoop fs b off (i + 1) rest
          (some r1 :: res.1, res.2)

/-- File.WriteAt: guard, fan the buffer out to every replica in order, and
advance the shared cursor by the buffer length only on full success (a
failure returns count 0 and leaves the cursor unchanged). -/
def writeAtM (st : FState) (b : Bytes) (off : Int) : FState × Nat × GoRes :=
  if st.multi.isEmpty then (st, 0, .one .invalid)
  else
    match st.gate with
    | .shut => (st, 0, .one .closed)
    | .avail =>
      let res := writeLoop st.forceSync b off 0 st.multi
      match res.2 with
      | .ok => ({ st with multi := res.1, offset := st.offset + b.length },
                b.length, .ok)
      | e => ({ st with multi := res.1 }, 0, e)

/-- File.Write: delegates to WriteAt at the shared cursor. -/
def writeM (st : FState) (b : Bytes) : FState × Nat × GoRes :=
  writeAtM st b st.offset

/-- File.Close's per-replica sweep: close every non-nil replica handle in
order, wrapping each error with its path, and count the errors that are
"already closed". Returns (errs, closedErrs). -/
def closeStep : Nat → List (Option IORep) → List GErr × Nat
  | _, [] => ([], 0)
  | i, none :: rest => closeStep (i + 1) rest
  | i, some r :: rest =>
    let res := closeStep (i + 1) rest
    match r.cres with
    | .okC => res
    | .alreadyClosedC => (.wrap i .closed :: res.1, res.2 + 1)
    | .failC n => (.wrap i (.otherE n) :: res.1, res.2)

/-- File.Close: if every collected error is an "already closed" one (or there
were none), finalize — permanently close the gate — and report "file closed"
exactly when every replica was already closed; otherwise release the gate for
a retry and report the aggregate of the collected errors. -/
def closeM (st : FState) : FState × GoRes :=
  if st.multi.isEmpty then (st, .one .invalid)
  else
    match st.gate with
    | .shut => (st, .one .closed)
    | .avail =>
      let res := closeStep 0 st.multi
      if res.1.length == 0 || res.1.length == res.2 then
        if st.multi.length == res.2 then ({ st with gate := .shut }, .one .closed)
        else ({ st with gate := .shut }, .ok)
      else (st, aggErrorsM res.1)

/-- A default (invalid) handle state, used to project `Option FState`. -/
def nilF : FState :=
  { quorum := 0, appendOnly := false, forceSync := false, hashing := none,
    quorumFail := .error, multi := [], offset := 0, gate := .shut }

/-- Projection out of `New`'s optional result. -/
def theGet (o : Option FState) : FState := o.getD nilF

/-- A replica slot on which File.WriteAt's fan-out fully succeeds for a
buffer of length `blen`: a present handle whose underlying write is full
(or a short-write outcome of at least `blen` bytes) and whose flush succeeds
when forceSync is on. -/
def slotGoodB (fs : Bool) (blen : Nat) : Option IORep → Bool
  | none => false
  | some r =>
    (match r.wres with
     | .okW => true
     | .shortW k => blen ≤ k
     | .errW _ => false) && (!fs || r.syncOk)

/-- The effect of a fully successful replica write at offset `off`. -/
def applyGood (b : Bytes) (off : Int) : Option IORep → Option IORep
  | none => none
  | some r => some { r with content := osWriteAtBytes r.content off.toNat b }

/-- The effect of the write fan-out on the first failing replica slot: an
erroring write leaves it untouched, a short write stores the prefix, and a
write whose flush fails stores the full buffer (the write itself happened
before the flush was attempted). -/
def badApply (b : Bytes) (off : Int) : Option IORep → Option IORep
  | none => none
  | some r =>
    match r.wres with
    | .errW _ => some r
    | .okW => some { r with content := osWriteAtBytes r.content off.toNat b }
    | .shortW k =>
      some { r with content := osWriteAtBytes r.content off.toNat (b.take (min k b.length)) }

/-! ### Concrete open scenarios used by the claims -/

/-- C1 scenario: three volumes, a configured content digest (modelled by the
identity function, an injective digest), content `A = [7]` on volumes 0 and
2, divergent content `B = [1]` on volume 1, quorum 2. -/
def c1Cfg : Cfg :=
  { quorum := 2, appendOnly := false, forceSync := false,
    hashing := some (fun b => b), quorumFail := .error }

/-- The three replicas of the C1 scenario. -/
def c1Vols : List (Option IORep) :=
  [some (fileRep [7] 1), some (fileRep [1] 2), some (fileRep [7] 3)]

/-- C2 scenario: two volumes with differing non-empty contents of sizes 1 and
2, no digest function (size digest), quorum 2, policy ShortestNonZero. -/
def c2Cfg : Cfg :=
  { quorum := 2, appendOnly := false, forceSync := false,
    hashing := none, quorumFail := .shortestNonZero }

/-- The two replicas of the C2 scenario. -/
def c2Vols : List (Option IORep) :=
  [some (fileRep [1] 1), some (fileRep [2, 3] 2)]

/-! ### List helper lemmas -/

theorem getD_default_of_le {α : Type} (d : α) :
    ∀ (l : List α) (i : Nat), l.length ≤ i → l.getD i d = d := by
  intro l
  induction l with
  | nil => intro i _; simp
  | cons x t ih =>
    intro i hi
    cases i with
    | zero => simp at hi
    | succ j => simpa using ih j (by simpa using hi)

theorem getD_set_ne {α : Type} (a d : α) :
    ∀ (l : List α) (i j : Nat), i ≠ j → (l.set i a).getD j d = l.getD j d := by
  intro l
  induction l with
  | nil => intro i j _; simp [List.set]
  | cons x t ih =>
    intro i j hij
    cases i with
    | zero =>
      cases j with
      | zero => exact absurd rfl hij
      | succ j' => simp [List.set]
    | succ i' =>
      cases j with
      | zero => simp [List.set]
      | succ j' => simpa [List.set] using ih i' j' (by omega)

theorem getD_set_self {α : Type} (a d : α) :
    ∀ (l : List α) (i : Nat), i < l.length → (l.set i a).getD i d = a := by
  intro l
  induction l with
  | nil => intro i hi; simp at hi
  | cons x t ih =>
    intro i hi
    cases i with
    | zero => simp [List.set]
    | succ i' => simpa [List.set] using ih i' (by simpa using hi)

theorem getD_replicate {α : Type} (x d : α) :
    ∀ (n i : Nat), i < n → (List.replicate n x).getD i d = x := by
  intro n
  induction n with
  | zero => intro i hi; omega
  | succ m ih =>
    intro i hi
    cases i with
    | zero => simp [List.replicate]
    | succ j => simpa [List.replicate] using ih j (by omega)

theorem getD_lt_length {α : Type} (d : α) (l : List α) (i : Nat)
    (h : l.getD i d ≠ d) : i < l.length := by
  by_contra hc
  exact h (getD_default_of_le d l i (by omega))

theorem getD_map_none {α β : Type} (f : Option α → Option β)
    (hf : f none = none) :
    ∀ (l : List (Option α)) (j : Nat), (l.map f).getD j none = f (l.getD j none) := by
  intro l
  induction l with
  | nil => intro j; simp [hf]
  | cons x t ih =>
    intro j
    cases j with
    | zero => simp
    | succ j' => simpa using ih j'

theorem eq_replicate_of_getD {α : Type} (v d : α) :
    ∀ (l : List α), (∀ j, j < l.length → l.getD j d = v) →
      l = List.replicate l.length v := by
  intro l
  induction l with
  | nil => intro _; simp
  | cons x t ih =>
    intro hp
    have hx : x = v := by simpa using hp 0 (by simp)
    have ht : t = List.replicate t.length v := by
      refine ih ?_
      intro j hj
      simpa using hp (j + 1) (by simpa using hj)
    simp [List.replicate, hx, ← ht]

theorem foldl_keep {α β : Type} :
    ∀ (idxs : List β) (l : α), idxs.foldl (fun hs _ => hs) l = l := by
  intro idxs
  induction idxs with
  | nil => intro l; rfl
  | cons i rest ih => intro l; simp only [List.foldl_cons]; exact ih l

theorem foldl_set_length {α : Type} (v : α) :
    ∀ (idxs : List Nat) (l : List α),
      (idxs.foldl (fun hs i => hs.set i v) l).length = l.length := by
  intro idxs
  induction idxs with
  | nil => intro l; rfl
  | cons i rest ih => intro l; simpa using ih (l.set i v)

theorem foldl_set_getD {α : Type} (v d : α) :
    ∀ (idxs : List Nat) (l : List α) (j : Nat), j < l.length →
      (idxs.foldl (fun hs i => hs.set i v) l).getD j d
        = if j ∈ idxs then v else l.getD j d := by
  intro idxs
  induction idxs with
  | nil => intro l j _; simp
  | cons i rest ih =>
    intro l j hj
    have hlen : j < (l.set i v).length := by simpa using hj
    have hrec := ih (l.set i v) j hlen
    rw [List.foldl_cons, hrec]
    by_cases hjr : j ∈ rest
    · simp [hjr]
    · by_cases hji : j = i
      · subst hji
        rw [if_neg hjr, getD_set_self v d l j hj,
          if_pos (List.mem_cons_self j rest)]
      · rw [getD_set_ne v d l i j (by omega)]
        simp [hjr, hji]

theorem mem_imp_getD {α : Type} (d : α) :
    ∀ (l : List α) (s : α), s ∈ l → ∃ j, j < l.length ∧ l.getD j d = s := by
  intro l
  induction l with
  | nil => intro s hs; simp at hs
  | cons x t ih =>
    intro s hs
    rcases List.mem_cons.mp hs with h | h
    · exact ⟨0, by simp, by simp [h]⟩
    · rcases ih s h with ⟨j, hj, hg⟩
      exact ⟨j + 1, by simpa using hj, by simpa using hg⟩

theorem isEmpty_eq_false_of_ne {α : Type} (l : List α) (h : l ≠ []) :
    l.isEmpty = false := by
  cases l with
  | nil => exact absurd rfl h
  | cons x t => rfl

theorem allAdjEq_replicate (x : Option Bytes) :
    ∀ n, allAdjEq (List.replicate n x) = true := by
  intro n
  induction n with
  | zero => rfl
  | succ m ih =>
    cases m with
    | zero => rfl
    | succ k =>
      simp only [List.replicate, allAdjEq] at ih ⊢
      simpa [digestEq] using ih

/-! ### Claim theorems -/

/-- C1: with `N = 3`, content `A` on two volumes and `B` on volume 1, quorum
2 and a configured digest, the open succeeds and the quorum digest's
most-recently-seen holder (volume 0) is canonical — but the divergent replica
is NOT rewritten to hold exactly `A`: the digest pass left replica 1's handle
offset at its old end-of-file, so after `Truncate(0)` the repair write lands
at offset 1 and produces `[0, 7]` (a zero-filled byte followed by `A`)
instead of `[7]`; the three replicas are not byte-identical afterwards. -/
theorem c1_repair_zero_prefix :
    (NewM c1Cfg c1Vols).2 = .ok ∧
    ((NewM c1Cfg c1Vols).1.map contentsOf) =
      some [some [7], some [0, 7], some [7]] ∧
    ((NewM c1Cfg c1Vols).1.map contentsOf) ≠
      some [some [7], some [7], some [7]] := by
  refine ⟨by decide, by decide, by decide⟩

/-- C2: the ShortestNonZero policy can never select a candidate: its rule is
`0 < size ∧ size < best` with `best` initialized to `-1`, so the comparison
against the initial best is always false (first conjunct, for every replica
size, time and index); consequently, on the concrete C2 scenario — where the
claim promises that the smallest non-empty replica becomes canonical and the
open succeeds — construction fails with the quorum-not-reached condition and
no handle is returned. -/
theorem c2_shortest_nonzero_never_selected :
    (∀ (sz mt i bmod : Int),
        isSourceOfTruth sz mt .shortestNonZero i (-1) (-1) bmod = false) ∧
    (NewM c2Cfg c2Vols).1.isNone = true ∧
    (NewM c2Cfg c2Vols).2 = .one .quorumNotReached := by
  refine ⟨?_, by decide, by decide⟩
  intro sz mt i bmod
  simp only [isSourceOfTruth]
  by_cases h : (0 : Int) < sz
  · have : ¬ sz < (-1 : Int) := by omega
    simp [h, this]
  · simp [h]

/-! ### Close: structural lemmas -/

/-- A replica slot whose underlying close reports "already closed". -/
def isACSlot : Option IORep → Bool
  | some r => r.cres == .alreadyClosedC
  | none => false

/-- A replica slot whose underlying close fails for another reason. -/
def isFailSlot : Option IORep → Bool
  | some r => match r.cres with | .failC _ => true | _ => false
  | none => false

theorem closeStep_counts :
    ∀ (i : Nat) (l : List (Option IORep)),
      (closeStep i l).2 = l.countP isACSlot ∧
      (closeStep i l).1.length = l.countP isACSlot + l.countP isFailSlot := by
  intro i l
  induction l generalizing i with
  | nil => simp [closeStep]
  | cons s rest ih =>
    rcases ih (i + 1) with ⟨h2, h1⟩
    cases s with
    | none => simpa [closeStep, List.countP_cons, isACSlot, isFailSlot] using ih (i + 1)
    | some r =>
      cases hc : r.cres with
      | okC =>
        simp [closeStep, hc, List.countP_cons, isACSlot, isFailSlot, h1, h2]
      | alreadyClosedC =>
        simp [closeStep, hc, List.countP_cons, isACSlot, isFailSlot, h1, h2]
        omega
      | failC n =>
        simp [closeStep, hc, List.countP_cons, isACSlot, isFailSlot, h1, h2]
        omega

/-- C7: when every per-replica close succeeds or reports "already closed",
Close finalizes (the gate is permanently closed); it reports the "file
closed" condition exactly when every replica slot was an already-closed
handle, and success otherwise; a second Close on the finalized handle
reports the bare "already closed" condition. -/
theorem c7_close_finalization (st : FState)
    (hg : st.gate = .avail) (hm : st.multi ≠ [])
    (hben : ∀ s ∈ st.multi, isFailSlot s = false) :
    (closeM st).1.gate = .shut ∧
    ((closeM st).2 = .one .closed ↔ ∀ s ∈ st.multi, isACSlot s = true) ∧
    ((closeM st).2 = .one .closed ∨ (closeM st).2 = .ok) ∧
    (closeM (closeM st).1).2 = .one .closed := by
  have hme : st.multi.isEmpty = false := isEmpty_eq_false_of_ne st.multi hm
  rcases closeStep_counts 0 st.multi with ⟨h2, h1⟩
  have hfail : st.multi.countP isFailSlot = 0 := by
    rw [List.countP_eq_zero]
    intro a ha
    simpa using hben a ha
  have hlen : (closeStep 0 st.multi).1.length = (closeStep 0 st.multi).2 := by
    omega
  have hcond : ((closeStep 0 st.multi).1.length == 0
      || (closeStep 0 st.multi).1.length == (closeStep 0 st.multi).2) = true := by
    simp [hlen]
  by_cases hall : ∀ s ∈ st.multi, isACSlot s = true
  · have hcp : st.multi.countP isACSlot = st.multi.length :=
      List.countP_eq_length.mpr hall
    have hbeq : (st.multi.length == (closeStep 0 st.multi).2) = true := by
      simp [h2, hcp]
    have hres : closeM st = ({ st with gate := .shut }, .one .closed) := by
      simp only [closeM, hme, Bool.false_eq_true, if_false, hg]
      simp [hcond, hbeq]
    refine ⟨by simp [hres], ?_, by simp [hres], ?_⟩
    · rw [hres]
      exact ⟨fun _ => hall, fun _ => rfl⟩
    · rw [hres]
      simp [closeM, hme]
  · have hcp : st.multi.countP isACSlot ≠ st.multi.length := by
      intro hcontra
      exact hall (List.countP_eq_length.mp hcontra)
    have hbeq : (st.multi.length == (closeStep 0 st.multi).2) = false := by
      simp only [beq_eq_false_iff_ne, ne_eq, h2]
      omega
    have hres : closeM st = ({ st with gate := .shut }, .ok) := by
      simp only [closeM, hme, Bool.false_eq_true, if_false, hg]
      simp [hcond, hbeq]
    refine ⟨by simp [hres], ?_, by simp [hres], ?_⟩
    · rw [hres]
      exact iff_of_false (by simp) hall
    · rw [hres]
      simp [closeM, hme]

/-- Witness for C7 at a concrete input: two replicas, one closing cleanly and
one already closed — Close finalizes, reports success (not "file closed"),
and a second Close reports "already closed". -/
def c7St : FState :=
  { quorum := 1, appendOnly := false, forceSync := false, hashing := none,
    quorumFail := .error,
    multi := [some (fileRep [1] 0),
              some { fileRep [1] 0 with cres := .alreadyClosedC }],
    offset := 0, gate := .avail }

theorem c7_close_finalization_witness :
    (closeM c7St).1.gate = .shut ∧
    ((closeM c7St).2 = .one .closed ↔ ∀ s ∈ c7St.multi, isACSlot s = true) ∧
    ((closeM c7St).2 = .one .closed ∨ (closeM c7St).2 = .ok) ∧
    (closeM (closeM c7St).1).2 = .one .closed :=
  c7_close_finalization c7St rfl (by decide) (by decide)

/-- C6 counterexample state: replica 0 is already closed, replica 1 fails to
close with a genuine error. -/
def c6St : FState :=
  { quorum := 1, appendOnly := false, forceSync := false, hashing := none,
    quorumFail := .error,
    multi := [some { fileRep [] 0 with cres := .alreadyClosedC },
              some { fileRep [] 0 with cres := .failC 5 }],
    offset := 0, gate := .avail }

/-- C6 counterexample: with one "already closed" replica and one genuinely
failing replica, the code reports the aggregate of BOTH collected errors —
including the already-closed one — not the single non-already-closed failure
bare (which is what the claim's "aggregates only the errors that are not
already-closed conditions" and "a single such failure is reported bare"
would require). -/
theorem c6_close_agg_cex :
    (closeM c6St).2 = .agg [.wrap 0 .closed, .wrap 1 (.otherE 5)] ∧
    (closeM c6St).2 ≠ .one (.wrap 1 (.otherE 5)) ∧
    (closeM c6St).2 ≠ aggErrorsM [.wrap 1 (.otherE 5)] := by
  refine ⟨by decide, by decide, by decide⟩

/-- C6 amended: when some replica fails to close for a reason other than
"already closed", the close is not finalized — the handle state (gate
included) is left unchanged, so the gate stays released and Close can be
retried — and the reported error is the aggregate of ALL collected
per-replica close errors (already-closed ones included); it is reported bare
exactly when a single error was collected in total. -/
theorem c6_close_not_finalized (st : FState)
    (hg : st.gate = .avail) (hm : st.multi ≠ [])
    (hbad : ∃ s ∈ st.multi, isFailSlot s = true) :
    (closeM st).1 = st ∧
    (closeM st).1.gate = .avail ∧
    (closeM st).2 = aggErrorsM (closeStep 0 st.multi).1 ∧
    (∀ e, (closeStep 0 st.multi).1 = [e] → (closeM st).2 = .one e) := by
  have hme : st.multi.isEmpty = false := isEmpty_eq_false_of_ne st.multi hm
  rcases closeStep_counts 0 st.multi with ⟨h2, h1⟩
  have hfail : 0 < st.multi.countP isFailSlot := by
    rcases hbad with ⟨s, hs, hfs⟩
    exact List.countP_pos_iff.mpr ⟨s, hs, hfs⟩
  have hz : ((closeStep 0 st.multi).1.length == 0) = false := by
    simp only [beq_eq_false_iff_ne, ne_eq]
    omega
  have hcc : ((closeStep 0 st.multi).1.length == (closeStep 0 st.multi).2) = false := by
    simp only [beq_eq_false_iff_ne, ne_eq, h2]
    omega
  have hres : closeM st = (st, aggErrorsM (closeStep 0 st.multi).1) := by
    simp only [closeM, hme, Bool.false_eq_true, if_false, hg]
    simp [hz, hcc]
  refine ⟨by simp [hres], by simp [hres, hg], by simp [hres], ?_⟩
  intro e he
  simp [hres, he, aggErrorsM]

/-- Witness for C6 at a concrete input: two replicas that both fail to close
with genuine errors; the gate stays released and the aggregate of the two
collected errors is reported. -/
def c6wSt : FState :=
  { quorum := 1, appendOnly := false, forceSync := false, hashing := none,
    quorumFail := .error,
    multi := [some { fileRep [] 0 with cres := .failC 3 },
              some { fileRep [] 0 with cres := .failC 4 }],
    offset := 0, gate := .avail }

theorem c6_close_not_finalized_witness :
    (closeM c6wSt).1 = c6wSt ∧
    (closeM c6wSt).1.gate = .avail ∧
    (closeM c6wSt).2 = aggErrorsM (closeStep 0 c6wSt.multi).1 ∧
    (∀ e, (closeStep 0 c6wSt.multi).1 = [e] → (closeM c6wSt).2 = .one e) :=
  c6_close_not_finalized c6wSt rfl (by decide) ⟨some { fileRep [] 0 with cres := .failC 3 }, by decide, by decide⟩

/-! ### Read / ReadAt cursor behaviour (C3) -/

/-- C3 counterexample state: one replica holding one byte, cursor at 0. -/
def c3St : FState :=
  { quorum := 1, appendOnly := false, forceSync := false, hashing := none,
    quorumFail := .error, multi := [some (fileRep [7] 1)],
    offset := 0, gate := .avail }

/-- C3 counterexample: `ReadAt(buf, 0)` on a one-byte replica returns one
byte but also moves the shared cursor from 0 to 1 — `ReadAt` does NOT leave
the shared cursor unchanged (the code runs `f.offset += int64(n)` on the
shared `ReadAt` path). -/
theorem c3_readAt_moves_cursor_cex :
    (readAtM c3St 1 0).2.1 = 1 ∧
    c3St.offset = 0 ∧
    (readAtM c3St 1 0).1.offset = 1 := by
  refine ⟨by decide, by decide, by decide⟩

/-- C3 amended: `Read` advances the shared cursor by the bytes returned, and
so does `ReadAt` — for every handle state, buffer length, offset and replica
outcome, `ReadAt` adds the returned byte count to the shared cursor, and
`Read` is exactly `ReadAt` at the current cursor. -/
theorem c3_read_and_readAt_advance (st : FState) (blen : Nat) (off : Int)
    (hg : st.gate = .avail) (hm : st.multi ≠ []) :
    (readAtM st blen off).1.offset
      = st.offset + ((readAtM st blen off).2.1 : Int) ∧
    readM st blen = readAtM st blen st.offset := by
  have hme : st.multi.isEmpty = false := isEmpty_eq_false_of_ne st.multi hm
  constructor
  · simp [readAtM, hme, hg]
  · rfl

/-- Witness for C3 at a concrete input. -/
theorem c3_read_and_readAt_advance_witness :
    (readAtM c3St 1 0).1.offset
      = c3St.offset + ((readAtM c3St 1 0).2.1 : Int) ∧
    readM c3St 1 = readAtM c3St 1 c3St.offset :=
  c3_read_and_readAt_advance c3St 1 0 rfl (by decide)

/-! ### Append-only cursor initialization (C4) -/

/-- C4 counterexample configuration: a single volume, append-only. -/
def c4sCfg : Cfg :=
  { quorum := 1, appendOnly := true, forceSync := false, hashing := none,
    quorumFail := .error }

/-- The single replica of size 1 for the C4 counterexample. -/
def c4sVols : List (Option IORep) := [some (fileRep [7] 1)]

/-- C4 counterexample: opening a single replica of size `S = 1` in
append-only mode leaves the shared cursor at 0, not `S` — the single-replica
fast path of `consensus` returns before the append-only cursor
initialization runs. -/
theorem c4_single_replica_cursor_cex :
    ((NewM c4sCfg c4sVols).1.map FState.offset) = some 0 ∧
    ((NewM c4sCfg c4sVols).1.map FState.offset) ≠ some 1 := by
  refine ⟨by decide, by decide⟩

/-! ### Open quorum gate (C9) -/

/-- The number of volumes whose open succeeded. -/
def succCount (vols : List (Option IORep)) : Nat :=
  vols.countP (fun v => v.isSome)

theorem openErrs_length :
    ∀ (i : Nat) (vols : List (Option IORep)),
      (openErrs i vols).length = vols.countP (fun v => v.isNone) := by
  intro i vols
  induction vols generalizing i with
  | nil => rfl
  | cons v rest ih =>
    cases v with
    | none => simp [openErrs, List.countP_cons, ih (i + 1)]
    | some r => simp [openErrs, List.countP_cons, ih (i + 1)]

theorem count_some_add_none (vols : List (Option IORep)) :
    vols.countP (fun v => v.isSome) + vols.countP (fun v => v.isNone)
      = vols.length := by
  induction vols with
  | nil => rfl
  | cons v rest ih =>
    cases v with
    | none => simp [List.countP_cons]; omega
    | some r => simp [List.countP_cons]; omega

/-- C9 counterexample: two volumes both open successfully (so at least
`q = 2` opens succeed), yet construction fails — the replicas' contents
differ, no digest reaches the quorum, and the Error policy forbids a
fallback. Opening is therefore not equivalent to "at least q volumes open
successfully". -/
theorem c9_open_iff_cex :
    succCount [some (fileRep [1] 1), some (fileRep [2, 3] 2)] = 2 ∧
    (NewM { quorum := 2, appendOnly := false, forceSync := false,
            hashing := none, quorumFail := .error }
       [some (fileRep [1] 1), some (fileRep [2, 3] 2)]).1.isNone = true := by
  refine ⟨by decide, by decide⟩

/-- C9 amended: at least `q` successful volume opens is necessary, and its
failure is sufficient for construction failure: with `1 ≤ q ≤ N`, if fewer
than `q` volumes open successfully the construction fails (with a non-nil
error), and if construction succeeds then at least `q` volumes opened
successfully; it is not sufficient on its own — the consensus pass must also
succeed. -/
theorem c9_quorum_gate (cfg : Cfg) (vols : List (Option IORep))
    (hq1 : 1 ≤ cfg.quorum) (hqN : cfg.quorum ≤ vols.length) :
    (succCount vols < cfg.quorum →
      (NewM cfg vols).1 = none ∧ (NewM cfg vols).2 ≠ .ok) ∧
    ((NewM cfg vols).1.isSome = true → cfg.quorum ≤ succCount vols) := by
  have hq0 : (cfg.quorum == 0) = false := by
    simp only [beq_eq_false_iff_ne, ne_eq]
    omega
  have hlen := count_some_add_none vols
  have herr := openErrs_length 0 vols
  constructor
  · intro hlt
    have hcond : vols.length - (openErrs 0 vols).length < cfg.quorum := by
      rw [herr]
      unfold succCount at hlt
      omega
    have hres : NewM cfg vols = (none, aggErrorsM (openErrs 0 vols)) := by
      simp [NewM, hq0, hcond]
    refine ⟨by simp [hres], ?_⟩
    have hpos : 0 < (openErrs 0 vols).length := by
      rw [herr]
      unfold succCount at hlt
      omega
    rw [hres]
    cases he : openErrs 0 vols with
    | nil => rw [he] at hpos; simp at hpos
    | cons e rest =>
      cases rest with
      | nil => simp [aggErrorsM]
      | cons e2 t => simp [aggErrorsM]
  · intro hsome
    by_cases hcond : vols.length - (openErrs 0 vols).length < cfg.quorum
    · have hres : NewM cfg vols = (none, aggErrorsM (openErrs 0 vols)) := by
        simp [NewM, hq0, hcond]
      rw [hres] at hsome
      simp at hsome
    · rw [herr] at hcond
      unfold succCount
      omega

/-- Witness for C9 at a concrete input: one of two volumes fails to open with
quorum 2, so construction fails. -/
theorem c9_quorum_gate_witness :
    (succCount [some (fileRep [1] 1), none] <
        (Cfg.mk 2 false false none .error).quorum →
      (NewM (Cfg.mk 2 false false none .error) [some (fileRep [1] 1), none]).1 = none ∧
      (NewM (Cfg.mk 2 false false none .error) [some (fileRep [1] 1), none]).2 ≠ .ok) ∧
    ((NewM (Cfg.mk 2 false false none .error) [some (fileRep [1] 1), none]).1.isSome = true →
      (Cfg.mk 2 false false none .error).quorum
        ≤ succCount [some (fileRep [1] 1), none]) :=
  c9_quorum_gate (Cfg.mk 2 false false none .error)
    [some (fileRep [1] 1), none] (by decide) (by decide)

/-! ### Write fan-out structural lemmas (C8, C10, C4) -/

theorem writeLoop_all_good (fs : Bool) (b : Bytes) (off : Int) (hoff : 0 ≤ off) :
    ∀ (multi : List (Option IORep)) (i : Nat),
      (∀ s ∈ multi, slotGoodB fs b.length s = true) →
      writeLoop fs b off i multi = (multi.map (applyGood b off), .ok) := by
  intro multi
  induction multi with
  | nil => intro i _; rfl
  | cons s rest ih =>
    intro i hgood
    have hs := hgood s (List.mem_cons_self s rest)
    have hrest : ∀ x ∈ rest, slotGoodB fs b.length x = true :=
      fun x hx => hgood x (List.mem_cons_of_mem s hx)
    cases s with
    | none => simp [slotGoodB] at hs
    | some r =>
      obtain ⟨rc, rh, rm, rd, rw, rs, rr⟩ := r
      have hnneg : ¬ (off < 0) := by omega
      simp only [slotGoodB, Bool.and_eq_true] at hs
      rcases hs with ⟨hw, hsync⟩
      have hsync2 : (fs && !rs) = false := by
        cases hfs : fs
        · rfl
        · cases hso : rs
          · rw [hfs, hso] at hsync; simp at hsync
          · simp [hso]
      cases rw with
      | okW =>
        simp only [writeLoop, if_neg hnneg, hsync2, Bool.false_eq_true,
          if_false]
        rw [ih (i + 1) hrest]
        simp [applyGood]
      | errW n => simp at hw
      | shortW k =>
        have hk : b.length ≤ k := by simpa using hw
        have hmin : min k b.length = b.length := Nat.min_eq_right hk
        have hbne : ((min k b.length != b.length) : Bool) = false := by
          simp [hmin]
        simp only [writeLoop, if_neg hnneg, hbne, Bool.false_eq_true,
          if_false, hsync2]
        rw [ih (i + 1) hrest]
        simp [applyGood, badApply, hmin]

theorem writeLoop_first_bad (fs : Bool) (b : Bytes) (off : Int) (hoff : 0 ≤ off) :
    ∀ (pre : List (Option IORep)) (s : Option IORep)
      (post : List (Option IORep)) (i : Nat),
      (∀ x ∈ pre, slotGoodB fs b.length x = true) →
      slotGoodB fs b.length s = false →
      (writeLoop fs b off i (pre ++ s :: post)).1
        = pre.map (applyGood b off) ++ badApply b off s :: post ∧
      (writeLoop fs b off i (pre ++ s :: post)).2 ≠ .ok := by
  intro pre
  induction pre with
  | nil =>
    intro s post i _ hbad
    cases s with
    | none => exact ⟨by simp [writeLoop, badApply], by simp [writeLoop]⟩
    | some r =>
      obtain ⟨rc, rh, rm, rd, rw, rs, rr⟩ := r
      have hnneg : ¬ (off < 0) := by omega
      simp only [slotGoodB] at hbad
      cases rw with
      | errW n =>
        exact ⟨by simp [writeLoop, if_neg hnneg, badApply],
               by simp [writeLoop, if_neg hnneg]⟩
      | okW =>
        simp only [Bool.true_and] at hbad
        have hfs : fs = true := by
          cases hf : fs
          · rw [hf] at hbad; simp at hbad
          · rfl
        have hso : rs = false := by
          cases hsk : rs
          · rfl
          · rw [hfs, hsk] at hbad; simp at hbad
        have hsync2 : (fs && !rs) = true := by simp [hfs, hso]
        exact ⟨by simp [writeLoop, if_neg hnneg, hsync2, badApply],
               by simp [writeLoop, if_neg hnneg, hsync2]⟩
      | shortW k =>
        by_cases hk : b.length ≤ k
        · have hfs : fs = true := by
            cases hf : fs
            · rw [hf] at hbad; simp [hk] at hbad
            · rfl
          have hso : rs = false := by
            cases hsk : rs
            · rfl
            · rw [hfs, hsk] at hbad; simp [hk] at hbad
          have hmin : min k b.length = b.length := Nat.min_eq_right hk
          have hsync2 : (fs && !rs) = true := by simp [hfs, hso]
          exact ⟨by simp [writeLoop, if_neg hnneg, hmin, hsync2, badApply],
                 by simp [writeLoop, if_neg hnneg, hmin, hsync2]⟩
        · have hmin : min k b.length = k := Nat.min_eq_left (by omega)
          have hne : ¬ (k = b.length) := by omega
          exact ⟨by simp [writeLoop, if_neg hnneg, hmin, hne, badApply],
                 by simp [writeLoop, if_neg hnneg, hmin, hne]⟩
  | cons x pre' ihp =>
    intro s post i hgood hbad
    have hx := hgood x (List.mem_cons_self x pre')
    have hpre' : ∀ y ∈ pre', slotGoodB fs b.length y = true :=
      fun y hy => hgood y (List.mem_cons_of_mem x hy)
    have ih := ihp s post (i + 1) hpre' hbad
    cases x with
    | none => simp [slotGoodB] at hx
    | some r =>
      obtain ⟨rc, rh, rm, rd, rw, rs, rr⟩ := r
      have hnneg : ¬ (off < 0) := by omega
      simp only [slotGoodB, Bool.and_eq_true] at hx
      rcases hx with ⟨hw, hsync⟩
      have hsync2 : (fs && !rs) = false := by
        cases hfs : fs
        · rfl
        · cases hso : rs
          · rw [hfs, hso] at hsync; simp at hsync
          · simp [hso]
      cases rw with
      | okW =>
        constructor
        · simp only [List.cons_append, writeLoop, if_neg hnneg, hsync2,
            Bool.false_eq_true, if_false, List.map_cons, List.append_eq]
          rw [ih.1]
          simp [applyGood]
        · simp only [List.cons_append, writeLoop, if_neg hnneg, hsync2,
            Bool.false_eq_true, if_false, List.append_eq]
          exact ih.2
      | errW n => simp at hw
      | shortW k =>
        have hk : b.length ≤ k := by simpa using hw
        have hmin : min k b.length = b.length := Nat.min_eq_right hk
        have hbne : ((min k b.length != b.length) : Bool) = false := by
          simp [hmin]
        constructor
        · simp only [List.cons_append, writeLoop, if_neg hnneg, hbne,
            Bool.false_eq_true, if_false, hsync2, List.map_cons, List.append_eq]
          rw [ih.1]
          simp [applyGood, hmin]
        · simp only [List.cons_append, writeLoop, if_neg hnneg, hbne,
            Bool.false_eq_true, if_false, hsync2, List.append_eq]
          exact ih.2

/-- C8: the write fan-out contract of `WriteAt` (and `Write`). When every
replica accepts the full buffer (and, under forceSync, flushes), the write is
applied to every replica in order, the call returns the buffer length with a
nil error, and the shared cursor advances by the buffer length. When the
fan-out hits a first replica that errors, short-writes, or fails its flush,
the call fails: later replicas are untouched (unattempted), earlier replicas
keep their completed writes (no rollback), the first bad replica holds
nothing new on an error, the written prefix on a short write, or the full
buffer on a flush failure (each replica is flushed immediately after its own
write, before the next replica is written), the returned count is 0, and the
shared cursor is unchanged. -/
theorem c8_writeAt_fanout (st : FState) (b : Bytes) (off : Int)
    (hg : st.gate = .avail) (hm : st.multi ≠ []) (hoff : 0 ≤ off) :
    ((∀ s ∈ st.multi, slotGoodB st.forceSync b.length s = true) →
      writeAtM st b off
        = ({ st with multi := st.multi.map (applyGood b off),
                     offset := st.offset + b.length }, b.length, .ok)) ∧
    (∀ pre s post, st.multi = pre ++ s :: post →
      (∀ x ∈ pre, slotGoodB st.forceSync b.length x = true) →
      slotGoodB st.forceSync b.length s = false →
      (writeAtM st b off).2.2 ≠ .ok ∧
      (writeAtM st b off).2.1 = 0 ∧
      (writeAtM st b off).1.offset = st.offset ∧
      (writeAtM st b off).1.multi
        = pre.map (applyGood b off) ++ badApply b off s :: post) := by
  have hme : st.multi.isEmpty = false := isEmpty_eq_false_of_ne st.multi hm
  constructor
  · intro hgood
    have hloop := writeLoop_all_good st.forceSync b off hoff st.multi 0 hgood
    simp [writeAtM, hme, hg, hloop]
  · intro pre s post hsplit hgood hbad
    have hloop := writeLoop_first_bad st.forceSync b off hoff pre s post 0 hgood hbad
    rw [← hsplit] at hloop
    rcases hloop with ⟨hl1, hl2⟩
    have hres : writeAtM st b off
        = ({ st with multi := (writeLoop st.forceSync b off 0 st.multi).1 }, 0,
           (writeLoop st.forceSync b off 0 st.multi).2) := by
      cases hw2 : (writeLoop st.forceSync b off 0 st.multi).2 with
      | ok => exact absurd hw2 hl2
      | one e => simp [writeAtM, hme, hg, hw2]
      | agg es => simp [writeAtM, hme, hg, hw2]
    refine ⟨?_, by simp [hres], by simp [hres], by simp [hres, hl1]⟩
    rw [hres]
    simpa using hl2

/-- A two-replica state whose second replica errors on write, used as the C8
witness. -/
def c8St : FState :=
  { quorum := 1, appendOnly := false, forceSync := false, hashing := none,
    quorumFail := .error,
    multi := [some (fileRep [5] 0), some { fileRep [5] 0 with wres := .errW 9 }],
    offset := 0, gate := .avail }

/-- Witness for C8 at a concrete input: the fan-out stops at the second
(erroring) replica; the first keeps its completed write, the cursor does not
move, and the returned count is 0. -/
theorem c8_writeAt_fanout_witness :
    (writeAtM c8St [1, 2] 0).2.2 ≠ .ok ∧
    (writeAtM c8St [1, 2] 0).2.1 = 0 ∧
    (writeAtM c8St [1, 2] 0).1.offset = c8St.offset ∧
    (writeAtM c8St [1, 2] 0).1.multi
      = [some (fileRep [5] 0)].map (applyGood [1, 2] 0)
          ++ badApply [1, 2] 0 (some { fileRep [5] 0 with wres := .errW 9 }) :: [] :=
  (c8_writeAt_fanout c8St [1, 2] 0 rfl (by decide) (by decide)).2
    [some (fileRep [5] 0)] (some { fileRep [5] 0 with wres := .errW 9 }) []
    (by decide) (by decide) (by decide)

/-- C10: `WriteAt` at any explicit non-negative offset advances the shared
cursor by the buffer length on full success, exactly as `Write` does —
`Write` is definitionally `WriteAt` at the shared cursor, and both share the
`f.offset += int64(len(b))` success path. -/
theorem c10_writeAt_advances_cursor (st : FState) (b : Bytes) (off : Int)
    (hg : st.gate = .avail) (hm : st.multi ≠ []) (hoff : 0 ≤ off)
    (hgood : ∀ s ∈ st.multi, slotGoodB st.forceSync b.length s = true) :
    (writeAtM st b off).2.1 = b.length ∧
    (writeAtM st b off).2.2 = .ok ∧
    (writeAtM st b off).1.offset = st.offset + b.length ∧
    writeM st b = writeAtM st b st.offset := by
  have hme : st.multi.isEmpty = false := isEmpty_eq_false_of_ne st.multi hm
  have hloop := writeLoop_all_good st.forceSync b off hoff st.multi 0 hgood
  refine ⟨?_, ?_, ?_, rfl⟩ <;> simp [writeAtM, hme, hg, hloop]

/-- Witness for C10 at a concrete input: a two-replica write at explicit
offset 3 moves the cursor from 0 to 2 (the buffer length). -/
def c10St : FState :=
  { quorum := 1, appendOnly := false, forceSync := false, hashing := none,
    quorumFail := .error,
    multi := [some (fileRep [5] 0), some (fileRep [5] 0)],
    offset := 0, gate := .avail }

theorem c10_writeAt_advances_cursor_witness :
    (writeAtM c10St [1, 2] 3).2.1 = ([1, 2] : Bytes).length ∧
    (writeAtM c10St [1, 2] 3).2.2 = .ok ∧
    (writeAtM c10St [1, 2] 3).1.offset = c10St.offset + ([1, 2] : Bytes).length ∧
    writeM c10St [1, 2] = writeAtM c10St [1, 2] c10St.offset :=
  c10_writeAt_advances_cursor c10St [1, 2] 3 rfl (by decide) (by decide) (by decide)

/-! ### Consensus digest scan over identical replicas (C4) -/

/-- The digest the scan computes for replica `r` (nil digest for empty
content is handled at the call sites). -/
def dgConst (h : Option (Bytes → Bytes)) (r : IORep) : Bytes :=
  match h with
  | none => encLE8 r.content.length
  | some hf => hf (r.content.drop r.hofs)

theorem scanStep_const (h : Option (Bytes → Bytes)) (qf : QF) (r : IORep)
    (hdir : r.isDir = false) (acc : ScanSt) (i : Nat)
    (hone : acc.multi.getD i none = some r) (hfd : acc.foundDir = false) :
    ∃ st2, scanStep h qf acc i = .ok st2 ∧
      st2.foundDir = false ∧
      st2.hashes = (if r.content.length == 0 then acc.hashes
                    else acc.hashes.set i (some (dgConst h r))) ∧
      st2.sizes = acc.sizes ++ [(r.content.length : Int)] ∧
      st2.multi.length = acc.multi.length ∧
      (∀ j, st2.multi.getD j none = acc.multi.getD j none ∨
            st2.multi.getD j none = some { r with hofs := r.content.length }) ∧
      (∀ j, j ≠ i → st2.multi.getD j none = acc.multi.getD j none) := by
  have hilt : i < acc.multi.length :=
    getD_lt_length none acc.multi i (by rw [hone]; intro hc; cases hc)
  obtain ⟨fd0, ff0, si, ss, sm, hl, szs, ml⟩ := acc
  have hfd0 : fd0 = false := hfd
  subst hfd0
  simp only at hone hilt
  simp only [scanStep, hone, hdir, Bool.false_or, Bool.not_false, Bool.or_true,
    Bool.false_and, Bool.false_eq_true, if_false]
  by_cases hsrc : isSourceOfTruth (r.content.length : Int) r.modTime qf (i : Int)
      si ss sm = true
  · rw [if_pos hsrc]
    by_cases hsz : (r.content.length == 0) = true
    · rw [if_pos hsz]
      cases h with
      | none =>
        exact ⟨_, rfl, rfl, by simp [hsz, dgConst], rfl, rfl,
          fun j => Or.inl rfl, fun j _ => rfl⟩
      | some hf =>
        exact ⟨_, rfl, rfl, by simp [hsz, dgConst], rfl, rfl,
          fun j => Or.inl rfl, fun j _ => rfl⟩
    · rw [if_neg hsz]
      cases h with
      | none =>
        exact ⟨_, rfl, rfl, by simp [hsz, dgConst], rfl, rfl,
          fun j => Or.inl rfl, fun j _ => rfl⟩
      | some hf =>
        refine ⟨_, rfl, rfl, by simp [hsz, dgConst], rfl, by simp, ?_, ?_⟩
        · intro j
          by_cases hji : j = i
          · subst hji
            exact Or.inr (getD_set_self _ none ml j hilt)
          · exact Or.inl (getD_set_ne _ none ml i j (by omega))
        · intro j hj
          exact getD_set_ne _ none ml i j (by omega)
  · rw [if_neg hsrc]
    by_cases hsz : (r.content.length == 0) = true
    · rw [if_pos hsz]
      cases h with
      | none =>
        exact ⟨_, rfl, rfl, by simp [hsz, dgConst], rfl, rfl,
          fun j => Or.inl rfl, fun j _ => rfl⟩
      | some hf =>
        exact ⟨_, rfl, rfl, by simp [hsz, dgConst], rfl, rfl,
          fun j => Or.inl rfl, fun j _ => rfl⟩
    · rw [if_neg hsz]
      cases h with
      | none =>
        exact ⟨_, rfl, rfl, by simp [hsz, dgConst], rfl, rfl,
          fun j => Or.inl rfl, fun j _ => rfl⟩
      | some hf =>
        refine ⟨_, rfl, rfl, by simp [hsz, dgConst], rfl, by simp, ?_, ?_⟩
        · intro j
          by_cases hji : j = i
          · subst hji
            exact Or.inr (getD_set_self _ none ml j hilt)
          · exact Or.inl (getD_set_ne _ none ml i j (by omega))
        · intro j hj
          exact getD_set_ne _ none ml i j (by omega)

theorem scanLoop_const (h : Option (Bytes → Bytes)) (qf : QF) (r : IORep)
    (hdir : r.isDir = false) :
    ∀ (idxs : List Nat) (acc : ScanSt),
      idxs.Nodup →
      (∀ i ∈ idxs, acc.multi.getD i none = some r) →
      acc.foundDir = false →
      ∃ sc, scanLoop h qf idxs acc = .ok sc ∧
        sc.foundDir = false ∧
        sc.hashes = idxs.foldl
          (fun hs i => if r.content.length == 0 then hs
                       else hs.set i (some (dgConst h r))) acc.hashes ∧
        sc.sizes = acc.sizes
          ++ List.replicate idxs.length ((r.content.length : Int)) ∧
        sc.multi.length = acc.multi.length ∧
        (∀ j, sc.multi.getD j none = acc.multi.getD j none ∨
              sc.multi.getD j none = some { r with hofs := r.content.length }) := by
  intro idxs
  induction idxs with
  | nil =>
    intro acc _ _ hfd
    exact ⟨acc, rfl, hfd, rfl, by simp, rfl, fun j => Or.inl rfl⟩
  | cons i rest ih =>
    intro acc hnd hmem hfd
    have hone : acc.multi.getD i none = some r := hmem i (List.mem_cons_self i rest)
    have hnotmem : i ∉ rest := (List.nodup_cons.mp hnd).1
    have hndr : rest.Nodup := (List.nodup_cons.mp hnd).2
    obtain ⟨st2, hstep, hfd2, hhash2, hsz2, hlen2, hmulti2, hkeep2⟩ :=
      scanStep_const h qf r hdir acc i hone hfd
    have hmem2 : ∀ i' ∈ rest, st2.multi.getD i' none = some r := by
      intro i' hi'
      rw [hkeep2 i' (by intro hc; subst hc; exact hnotmem hi')]
      exact hmem i' (List.mem_cons_of_mem i hi')
    obtain ⟨sc, hloop, hfd3, hhash3, hsz3, hlen3, hmulti3⟩ :=
      ih st2 hndr hmem2 hfd2
    refine ⟨sc, ?_, hfd3, ?_, ?_, ?_, ?_⟩
    · simp only [scanLoop, hstep]
      exact hloop
    · rw [hhash3, hhash2, List.foldl_cons]
    · rw [hsz3, hsz2]
      simp [List.replicate_succ, List.append_assoc]
    · rw [hlen3, hlen2]
    · intro j
      rcases hmulti3 j with hj | hj
      · rw [hj]
        exact hmulti2 j
      · exact Or.inr hj

theorem openErrs_all_some :
    ∀ (i : Nat) (l : List (Option IORep)),
      (∀ v ∈ l, v.isSome = true) → openErrs i l = [] := by
  intro i l
  induction l generalizing i with
  | nil => intro _; rfl
  | cons v rest ih =>
    intro hall
    have hv : v.isSome = true := hall v (List.mem_cons_self v rest)
    simp only [openErrs, hv, if_true]
    exact ih (i + 1) (fun x hx => hall x (List.mem_cons_of_mem v hx))

theorem osWrite_append (c b : Bytes) : osWriteBytes c c.length b = c ++ b := by
  simp [osWriteBytes, List.take_length, List.drop_eq_nil_of_le]

/-- C4 scenario configuration: append-only handle, any digest function, any
quorum-fail policy, default quorum. -/
def c4Cfg (hfn : Option (Bytes → Bytes)) (qf : QF) : Cfg :=
  { quorum := 0, appendOnly := true, forceSync := false,
    hashing := hfn, quorumFail := qf }

/-- C4 scenario: `n` volumes all holding the same content `c`. -/
def c4Vols (c : Bytes) (t : Int) (n : Nat) : List (Option IORep) :=
  List.replicate n (some (fileRep c t))

/-- C4 amended: for `n ≥ 2` replicas agreeing on content `c` of size `S`,
opening append-only succeeds, the shared cursor is initialized to `S`, and a
subsequent `Write` of buffer `b` succeeds, appends `b` at offset `S` on every
replica (each replica afterwards holds `c ++ b`), and advances the cursor to
`S + len(b)`. (In the single-replica and no-volume fast paths the cursor
stays 0 — see the counterexample.) -/
theorem c4_append_only_cursor (c b : Bytes) (t : Int)
    (hfn : Option (Bytes → Bytes)) (qf : QF) (n : Nat) (hn : 2 ≤ n) :
    (NewM (c4Cfg hfn qf) (c4Vols c t n)).2 = .ok ∧
    (theGet (NewM (c4Cfg hfn qf) (c4Vols c t n)).1).offset = (c.length : Int) ∧
    (writeAtM (theGet (NewM (c4Cfg hfn qf) (c4Vols c t n)).1) b
        (theGet (NewM (c4Cfg hfn qf) (c4Vols c t n)).1).offset).2.1 = b.length ∧
    (writeAtM (theGet (NewM (c4Cfg hfn qf) (c4Vols c t n)).1) b
        (theGet (NewM (c4Cfg hfn qf) (c4Vols c t n)).1).offset).2.2 = .ok ∧
    (writeAtM (theGet (NewM (c4Cfg hfn qf) (c4Vols c t n)).1) b
        (theGet (NewM (c4Cfg hfn qf) (c4Vols c t n)).1).offset).1.offset
      = (c.length : Int) + b.length ∧
    contentsOfL (writeAtM (theGet (NewM (c4Cfg hfn qf) (c4Vols c t n)).1) b
        (theGet (NewM (c4Cfg hfn qf) (c4Vols c t n)).1).offset).1.multi
      = List.replicate n (some (c ++ b)) := by
  have hvols : (c4Vols c t n).length = n := by
    simp [c4Vols]
  -- the digest scan over n identical replicas
  have hnodup : ((List.range (c4Vols c t n).length).reverse).Nodup :=
    List.nodup_reverse.mpr (List.nodup_range _)
  have hmem : ∀ i ∈ (List.range (c4Vols c t n).length).reverse,
      (initScan (c4Vols c t n)).multi.getD i none = some (fileRep c t) := by
    intro i hi
    have hilt : i < n := by
      rw [← hvols]
      exact List.mem_range.mp (List.mem_reverse.mp hi)
    show (c4Vols c t n).getD i none = some (fileRep c t)
    exact getD_replicate _ none n i hilt
  obtain ⟨sc, hsc, hscfd, hschash, hscsizes, hsclen, hscmulti⟩ :=
    scanLoop_const hfn qf (fileRep c t) rfl
      ((List.range (c4Vols c t n).length).reverse) (initScan (c4Vols c t n))
      hnodup hmem rfl
  have hschlen : sc.hashes.length = n := by
    rw [hschash]
    by_cases hc0 : ((fileRep c t).content.length == 0) = true
    · simp only [hc0, if_true]
      rw [foldl_keep]
      show (List.replicate (c4Vols c t n).length (none : Option Bytes)).length = n
      simp [hvols]
    · simp only [hc0, if_false, Bool.false_eq_true]
      rw [foldl_set_length]
      show (List.replicate (c4Vols c t n).length (none : Option Bytes)).length = n
      simp [hvols]
  have hall : allAdjEq sc.hashes = true := by
    by_cases hc0 : ((fileRep c t).content.length == 0) = true
    · have hh : sc.hashes = List.replicate (c4Vols c t n).length none := by
        rw [hschash]
        simp only [hc0, if_true]
        exact foldl_keep _ _
      rw [hh]
      exact allAdjEq_replicate none _
    · have hh : sc.hashes
          = List.replicate n (some (dgConst hfn (fileRep c t))) := by
        have hlist : sc.hashes
            = ((List.range (c4Vols c t n).length).reverse).foldl
                (fun hs i => hs.set i (some (dgConst hfn (fileRep c t))))
                (List.replicate (c4Vols c t n).length none) := by
          rw [hschash]
          simp only [hc0, if_false, Bool.false_eq_true]
          rfl
        have hpt : ∀ j, j < sc.hashes.length →
            sc.hashes.getD j none = some (dgConst hfn (fileRep c t)) := by
          intro j hj
          rw [hschlen] at hj
          rw [hlist,
            foldl_set_getD _ none ((List.range (c4Vols c t n).length).reverse)
              (List.replicate (c4Vols c t n).length none) j (by simp [hvols]; omega)]
          have hjm : j ∈ (List.range (c4Vols c t n).length).reverse := by
            rw [List.mem_reverse, List.mem_range, hvols]
            omega
          rw [if_pos hjm]
        have := eq_replicate_of_getD (some (dgConst hfn (fileRep c t))) none
          sc.hashes hpt
        rw [this, hschlen]
      rw [hh]
      exact allAdjEq_replicate _ _
  have hhead : sc.sizes.head? = some ((c.length : Int)) := by
    rw [hscsizes]
    obtain ⟨m, rfl⟩ : ∃ m, n = m + 2 := ⟨n - 2, by omega⟩
    show ((List.replicate ((List.range (c4Vols c t (m + 2)).length).reverse).length
      ((c.length : Int))).head?) = _
    have : ((List.range (c4Vols c t (m + 2)).length).reverse).length = m + 2 := by
      simp [hvols]
    rw [this]
    rfl
  have hfast : ((c4Vols c t n).length == 1) = false := by
    simp only [beq_eq_false_iff_ne, ne_eq, hvols]
    omega
  have hcons : consensus
      { quorum := 1 + (c4Vols c t n).length / 2, appendOnly := true,
        forceSync := false, hashing := hfn, quorumFail := qf,
        multi := c4Vols c t n, offset := 0, gate := .avail }
      = ({ quorum := 1 + (c4Vols c t n).length / 2, appendOnly := true,
           forceSync := false, hashing := hfn, quorumFail := qf,
           multi := sc.multi, offset := (c.length : Int), gate := .avail },
         .ok) := by
    simp only [consensus, hfast, Bool.false_and, Bool.false_eq_true, if_false]
    rw [hsc]
    simp only [hall, if_true]
    rw [hhead]
  have herrs : openErrs 0 (c4Vols c t n) = [] := by
    refine openErrs_all_some 0 _ ?_
    intro v hv
    rw [List.eq_of_mem_replicate hv]
    rfl
  have hnew : NewM (c4Cfg hfn qf) (c4Vols c t n)
      = (some { quorum := 1 + (c4Vols c t n).length / 2, appendOnly := true,
                forceSync := false, hashing := hfn, quorumFail := qf,
                multi := sc.multi, offset := (c.length : Int), gate := .avail },
         .ok) := by
    have hnolt : ¬ ((c4Vols c t n).length - (List.length ([] : List GErr))
        < (if ((0 : Nat) == 0) = true then 1 + (c4Vols c t n).length / 2 else 0)) := by
      simp [hvols]
      omega
    have hqr : (if ((0 : Nat) == 0) = true then 1 + (c4Vols c t n).length / 2 else 0)
        = 1 + (c4Vols c t n).length / 2 := rfl
    simp only [NewM, c4Cfg]
    rw [herrs, if_neg hnolt, hqr, hcons]
  have hsclen2 : sc.multi.length = n := by
    rw [hsclen]
    exact hvols
  have hmne : sc.multi ≠ [] := by
    intro hnil
    rw [hnil] at hsclen2
    simp at hsclen2
    omega
  set stF : FState :=
    { quorum := 1 + (c4Vols c t n).length / 2, appendOnly := true,
      forceSync := false, hashing := hfn, quorumFail := qf,
      multi := sc.multi, offset := (c.length : Int), gate := .avail } with hstF
  have hget : theGet (NewM (c4Cfg hfn qf) (c4Vols c t n)).1 = stF := by
    rw [hnew]
    rfl
  have hoff0 : (0 : Int) ≤ (c.length : Int) := Int.natCast_nonneg _
  have hgood : ∀ s ∈ sc.multi, slotGoodB false b.length s = true := by
    intro s hs
    obtain ⟨j, hjlt, hj⟩ := mem_imp_getD none sc.multi s hs
    have hjn : j < n := by rw [← hsclen2]; exact hjlt
    rcases hscmulti j with hcase | hcase
    · rw [← hj, hcase]
      show slotGoodB false b.length
        ((List.replicate n (some (fileRep c t))).getD j none) = true
      rw [getD_replicate _ none n j hjn]
      rfl
    · rw [← hj, hcase]
      rfl
  have hloop := writeLoop_all_good false b ((c.length : Int)) hoff0 sc.multi 0 hgood
  have hwrite : writeAtM stF b stF.offset
      = ({ stF with
            multi := sc.multi.map (applyGood b ((c.length : Int))),
            offset := (c.length : Int) + b.length },
         b.length, .ok) := by
    rw [hstF]
    simp only [writeAtM, isEmpty_eq_false_of_ne sc.multi hmne,
      Bool.false_eq_true, if_false]
    rw [hloop]
  have hcontents : contentsOfL (sc.multi.map (applyGood b ((c.length : Int))))
      = List.replicate n (some (c ++ b)) := by
    have hlen4 : (contentsOfL (sc.multi.map (applyGood b ((c.length : Int))))).length
        = n := by
      simp [contentsOfL, hsclen2]
    have hwa : osWriteAtBytes c ((c.length : Int)).toNat b = c ++ b := by
      rw [osWriteAtBytes, Int.toNat_natCast]
      exact osWrite_append c b
    have hpt : ∀ j,
        j < (contentsOfL (sc.multi.map (applyGood b ((c.length : Int))))).length →
        (contentsOfL (sc.multi.map (applyGood b ((c.length : Int))))).getD j none
          = some (c ++ b) := by
      intro j hj
      rw [hlen4] at hj
      rw [contentsOfL, getD_map_none (Option.map IORep.content) rfl,
        getD_map_none (applyGood b ((c.length : Int))) rfl]
      rcases hscmulti j with hcase | hcase
      · rw [hcase]
        show Option.map IORep.content
          (applyGood b ((c.length : Int))
            ((List.replicate n (some (fileRep c t))).getD j none)) = some (c ++ b)
        rw [getD_replicate _ none n j hj]
        show some (osWriteAtBytes (fileRep c t).content ((c.length : Int)).toNat b)
          = some (c ++ b)
        rw [show (fileRep c t).content = c from rfl, hwa]
      · rw [hcase]
        show some (osWriteAtBytes (fileRep c t).content ((c.length : Int)).toNat b)
          = some (c ++ b)
        rw [show (fileRep c t).content = c from rfl, hwa]
    have hrep := eq_replicate_of_getD (some (c ++ b)) none
      (contentsOfL (sc.multi.map (applyGood b ((c.length : Int))))) hpt
    rw [hrep, hlen4]
  refine ⟨by rw [hnew], by rw [hget], ?_, ?_, ?_, ?_⟩
  · rw [hget, hwrite]
  · rw [hget, hwrite]
  · rw [hget, hwrite]
  · rw [hget, hwrite]
    exact hcontents

/-- Witness for C4's amended claim at a concrete input: two replicas holding
`[7]`, append-only open, then writing `[9]`. -/
theorem c4_append_only_cursor_witness :
    (NewM (c4Cfg none .error) (c4Vols [7] 1 2)).2 = .ok ∧
    (theGet (NewM (c4Cfg none .error) (c4Vols [7] 1 2)).1).offset
      = (([7] : Bytes).length : Int) ∧
    (writeAtM (theGet (NewM (c4Cfg none .error) (c4Vols [7] 1 2)).1) [9]
        (theGet (NewM (c4Cfg none .error) (c4Vols [7] 1 2)).1).offset).2.1
      = ([9] : Bytes).length ∧
    (writeAtM (theGet (NewM (c4Cfg none .error) (c4Vols [7] 1 2)).1) [9]
        (theGet (NewM (c4Cfg none .error) (c4Vols [7] 1 2)).1).offset).2.2 = .ok ∧
    (writeAtM (theGet (NewM (c4Cfg none .error) (c4Vols [7] 1 2)).1) [9]
        (theGet (NewM (c4Cfg none .error) (c4Vols [7] 1 2)).1).offset).1.offset
      = (([7] : Bytes).length : Int) + ([9] : Bytes).length ∧
    contentsOfL (writeAtM (theGet (NewM (c4Cfg none .error) (c4Vols [7] 1 2)).1) [9]
        (theGet (NewM (c4Cfg none .error) (c4Vols [7] 1 2)).1).offset).1.multi
      = List.replicate 2 (some (([7] : Bytes) ++ [9])) :=
  c4_append_only_cursor [7] [9] 1 none .error 2 (by decide)

/-! ### Error policy: open fails with no repair (C5) -/

theorem scanStep_error_sizeinv (h : Option (Bytes → Bytes)) (acc : ScanSt)
    (i : Nat) (st2 : ScanSt) (hstep : scanStep h .error acc i = .ok st2) :
    st2.srcSize = acc.srcSize := by
  cases hget : acc.multi.getD i none with
  | none =>
    simp only [scanStep, hget] at hstep
    cases hstep
    rfl
  | some r =>
    simp only [scanStep, hget] at hstep
    by_cases hty : ((acc.foundDir || r.isDir) && (acc.foundFile || !r.isDir)) = true
    · rw [if_pos hty] at hstep
      cases hstep
    · rw [if_neg hty] at hstep
      have hiso : isSourceOfTruth (r.content.length : Int) r.modTime .error
          (i : Int) acc.srcIdx acc.srcSize acc.srcMod = false := rfl
      rw [hiso] at hstep
      simp only [Bool.false_eq_true, if_false] at hstep
      by_cases hsz : (r.content.length == 0) = true
      · rw [if_pos hsz] at hstep
        cases hstep
        rfl
      · rw [if_neg hsz] at hstep
        cases h with
        | none =>
          cases hstep
          rfl
        | some hf =>
          cases hstep
          rfl

theorem list_eq_pair {α : Type} (l : List α) (d a b : α) (hlen : l.length = 2)
    (h0 : l.getD 0 d = a) (h1 : l.getD 1 d = b) : l = [a, b] := by
  cases l with
  | nil => simp at hlen
  | cons x t =>
    cases t with
    | nil => simp at hlen
    | cons y t2 =>
      cases t2 with
      | nil =>
        simp only [List.getD_cons_zero] at h0
        simp only [List.getD_cons_succ, List.getD_cons_zero] at h1
        rw [h0, h1]
      | cons z t3 => simp at hlen

/-- The C5 handle state right before consensus: two opened replicas, quorum
2, Error policy. -/
def c5StL (c0 c1 : Bytes) (t0 t1 : Int) (h : Option (Bytes → Bytes)) : FState :=
  { quorum := 2, appendOnly := false, forceSync := false, hashing := h,
    quorumFail := .error,
    multi := [some (fileRep c0 t0), some (fileRep c1 t1)],
    offset := 0, gate := .avail }

/-- C5: with two replicas whose contents differ as distinguished by the
configured digest (including an empty replica against a non-empty one),
quorum 2 and the Error quorum-fail policy, the open fails with the
quorum-not-reached condition and the handle is never returned; the consensus
pass reports the same condition without invoking repair — both replica
contents are left exactly as they were. -/
theorem c5_error_policy_quorum_fail (c0 c1 : Bytes) (t0 t1 : Int)
    (h : Option (Bytes → Bytes))
    (hd : digestEq (dgFresh h c0) (dgFresh h c1) = false) :
    NewM { quorum := 2, appendOnly := false, forceSync := false,
           hashing := h, quorumFail := .error }
        [some (fileRep c0 t0), some (fileRep c1 t1)]
      = (none, .one .quorumNotReached) ∧
    (consensus (c5StL c0 c1 t0 t1 h)).2 = .one .quorumNotReached ∧
    contentsOf (consensus (c5StL c0 c1 t0 t1 h)).1 = [some c0, some c1] := by
  obtain ⟨st2, hstep1, hfd2, hhash2, hsz2, hlen2, hmulti2, hkeep2⟩ :=
    scanStep_const h .error (fileRep c1 t1) rfl
      (initScan [some (fileRep c0 t0), some (fileRep c1 t1)]) 1 rfl rfl
  have hone0 : st2.multi.getD 0 none = some (fileRep c0 t0) := by
    rw [hkeep2 0 (by omega)]
    rfl
  obtain ⟨st3, hstep2, hfd3, hhash3, hsz3, hlen3, hmulti3, hkeep3⟩ :=
    scanStep_const h .error (fileRep c0 t0) rfl st2 0 hone0 hfd2
  have hscan : scanLoop h .error [1, 0]
      (initScan [some (fileRep c0 t0), some (fileRep c1 t1)]) = .ok st3 := by
    simp only [scanLoop, hstep1, hstep2]
  have hsrc3 : st3.srcSize = -1 := by
    rw [scanStep_error_sizeinv h st2 0 st3 hstep2,
      scanStep_error_sizeinv h _ 1 st2 hstep1]
    rfl
  have hdg0 : dgFresh h c0
      = if (c0.length == 0) = true then none
        else some (dgConst h (fileRep c0 t0)) := by
    cases h with
    | none => simp [dgFresh, dgConst, fileRep]
    | some hf => simp [dgFresh, dgConst, fileRep]
  have hdg1 : dgFresh h c1
      = if (c1.length == 0) = true then none
        else some (dgConst h (fileRep c1 t1)) := by
    cases h with
    | none => simp [dgFresh, dgConst, fileRep]
    | some hf => simp [dgFresh, dgConst, fileRep]
  have hhash3' : st3.hashes
      = [if (c0.length == 0) = true then none
         else some (dgConst h (fileRep c0 t0)),
         if (c1.length == 0) = true then none
         else some (dgConst h (fileRep c1 t1))] := by
    rw [hhash3, hhash2]
    by_cases hb0 : (c0.length == 0) = true <;>
      by_cases hb1 : (c1.length == 0) = true <;>
        simp [hb0, hb1, initScan, fileRep]
  have hall : allAdjEq st3.hashes = false := by
    rw [hhash3']
    show (digestEq _ _ && allAdjEq _) = false
    rw [← hdg0, ← hdg1, hd]
    rfl
  have hcount : countLoop 2 st3.hashes [1, 0] [] = none := by
    rw [hhash3']
    by_cases hb0 : (c0.length == 0) = true <;>
      by_cases hb1 : (c1.length == 0) = true
    · simp [countLoop, hb0, hb1]
    · simp [countLoop, hb0, hb1]
    · simp [countLoop, hb0, hb1]
    · have hneq : ¬ (dgConst h (fileRep c1 t1) = dgConst h (fileRep c0 t0)) := by
        intro heq
        rw [hdg0, hdg1, if_neg hb0, if_neg hb1] at hd
        simp [digestEq, heq] at hd
      simp [countLoop, hb0, hb1, List.count_cons, hneq]
  have hcons : consensus (c5StL c0 c1 t0 t1 h)
      = ({ c5StL c0 c1 t0 t1 h with multi := st3.multi },
         .one .quorumNotReached) := by
    have hfastc : ((([some (fileRep c0 t0), some (fileRep c1 t1)]
          : List (Option IORep)).length == 1)
        && ((([some (fileRep c0 t0), some (fileRep c1 t1)]
          : List (Option IORep)).getD 0 none).isSome)) = false := rfl
    have hidx : (List.range ([some (fileRep c0 t0), some (fileRep c1 t1)]
        : List (Option IORep)).length).reverse = [1, 0] := rfl
    simp only [consensus, c5StL, hfastc, Bool.false_eq_true, if_false, hidx]
    rw [hscan]
    simp only [hall, Bool.false_eq_true, if_false]
    rw [hcount]
    simp only [hsrc3]
    rfl
  have hcont : contentsOfL st3.multi = [some c0, some c1] := by
    have hl3 : st3.multi.length = 2 := by
      rw [hlen3, hlen2]
      rfl
    refine list_eq_pair _ none _ _ ?_ ?_ ?_
    · simp [contentsOfL, hl3]
    · rw [contentsOfL, getD_map_none (Option.map IORep.content) rfl]
      rcases hmulti3 0 with hc | hc
      · rw [hc, hone0]
        rfl
      · rw [hc]
        rfl
    · rw [contentsOfL, getD_map_none (Option.map IORep.content) rfl]
      rw [hkeep3 1 (by omega)]
      rcases hmulti2 1 with hc | hc
      · rw [hc]
        rfl
      · rw [hc]
        rfl
  refine ⟨?_, by rw [hcons], ?_⟩
  · have hq2 : (if ((2 : Nat) == 0) = true
        then 1 + ([some (fileRep c0 t0), some (fileRep c1 t1)]
          : List (Option IORep)).length / 2
        else 2) = 2 := rfl
    have herr0 : openErrs 0 [some (fileRep c0 t0), some (fileRep c1 t1)] = [] := rfl
    have hnlt : ¬ (([some (fileRep c0 t0), some (fileRep c1 t1)]
        : List (Option IORep)).length - (List.length ([] : List GErr)) < 2) := by
      simp
    simp only [NewM]
    rw [herr0, hq2, if_neg hnlt]
    rw [show ({ quorum := 2, appendOnly := false, forceSync := false,
                hashing := h, quorumFail := .error,
                multi := [some (fileRep c0 t0), some (fileRep c1 t1)],
                offset := 0, gate := .avail } : FState) = c5StL c0 c1 t0 t1 h from rfl,
      hcons]
  · rw [hcons]
    exact hcont

/-- Witness for C5 at a concrete input: replicas `[1]` and `[2, 3]` under the
default size digest have different digests, so the Error policy fails the
open with quorum-not-reached and the contents are untouched. -/
theorem c5_error_policy_quorum_fail_witness :
    NewM { quorum := 2, appendOnly := false, forceSync := false,
           hashing := none, quorumFail := .error }
        [some (fileRep [1] 1), some (fileRep [2, 3] 2)]
      = (none, .one .quorumNotReached) ∧
    (consensus (c5StL [1] [2, 3] 1 2 none)).2 = .one .quorumNotReached ∧
    contentsOf (consensus (c5StL [1] [2, 3] 1 2 none)).1
      = [some [1], some [2, 3]] :=
  c5_error_policy_quorum_fail [1] [2, 3] 1 2 none (by decide)

end Haraqafs
